import Mathlib

/-!
Verification of the discoverd in-memory service-registry core
(`discoverd2/server/state.go`) against its specification.

The Go code is shallowly embedded: Go maps become association lists
(`List (String × α)`), Go's `nil` results become `Option`, a Go nil-pointer
dereference (runtime panic) is modelled as an operation returning `none`,
and events handed to `broadcast` are collected into an explicit list in the
order they are emitted.  Machine integers (`uint64`, `uint`) are modelled as
`Nat`; none of the embedded operations can overflow them.
-/

namespace Discoverd

/-! ### Association-list model of Go maps -/

/-- Go map assignment `m[k] = v`: replace the binding in place if the key is
present, otherwise append a fresh binding. -/
def mapInsert : List (String × α) → String → α → List (String × α)
  | [], k, v => [(k, v)]
  | p :: rest, k, v => if p.1 = k then (k, v) :: rest else p :: mapInsert rest k v

/-- Go map deletion `delete(m, k)`: remove the binding for `k` (maps have
unique keys, so removing the first occurrence models it). -/
def mapDelete : List (String × α) → String → List (String × α)
  | [], _ => []
  | p :: rest, k => if p.1 = k then rest else p :: mapDelete rest k

/-- Go map lookup `m[k]` with its comma-ok form: `none` models "key absent"
(where Go yields the zero value / nil). -/
def mapLookup : List (String × α) → String → Option α
  | [], _ => none
  | p :: rest, k => if p.1 = k then some p.2 else mapLookup rest k

/-! ### MD5 (used by `md5sum` in state.go via crypto/md5)

A direct implementation of RFC 1321 over `Nat` byte lists, with 32-bit
arithmetic done modulo `2 ^ 32`. -/

/-- The 64 MD5 sine-table constants `K[i]`. -/
def md5K : List Nat :=
  [0xd76aa478, 0xe8c7b756, 0x242070db, 0xc1bdceee,
   0xf57c0faf, 0x4787c62a, 0xa8304613, 0xfd469501,
   0x698098d8, 0x8b44f7af, 0xffff5bb1, 0x895cd7be,
   0x6b901122, 0xfd987193, 0xa679438e, 0x49b40821,
   0xf61e2562, 0xc040b340, 0x265e5a51, 0xe9b6c7aa,
   0xd62f105d, 0x02441453, 0xd8a1e681, 0xe7d3fbc8,
   0x21e1cde6, 0xc33707d6, 0xf4d50d87, 0x455a14ed,
   0xa9e3e905, 0xfcefa3f8, 0x676f02d9, 0x8d2a4c8a,
   0xfffa3942, 0x8771f681, 0x6d9d6122, 0xfde5380c,
   0xa4beea44, 0x4bdecfa9, 0xf6bb4b60, 0xbebfbc70,
   0x289b7ec6, 0xeaa127fa, 0xd4ef3085, 0x04881d05,
   0xd9d4d039, 0xe6db99e5, 0x1fa27cf8, 0xc4ac5665,
   0xf4292244, 0x432aff97, 0xab9423a7, 0xfc93a039,
   0x655b59c3, 0x8f0ccc92, 0xffeff47d, 0x85845dd1,
   0x6fa87e4f, 0xfe2ce6e0, 0xa3014314, 0x4e0811a1,
   0xf7537e82, 0xbd3af235, 0x2ad7d2bb, 0xeb86d391]

/-- The 64 MD5 per-round left-rotation amounts `S[i]`. -/
def md5S : List Nat :=
  [7, 12, 17, 22, 7, 12, 17, 22, 7, 12, 17, 22, 7, 12, 17, 22,
   5, 9, 14, 20, 5, 9, 14, 20, 5, 9, 14, 20, 5, 9, 14, 20,
   4, 11, 16, 23, 4, 11, 16, 23, 4, 11, 16, 23, 4, 11, 16, 23,
   6, 10, 15, 21, 6, 10, 15, 21, 6, 10, 15, 21, 6, 10, 15, 21]

/-- 32-bit truncation. -/
def m32 (n : Nat) : Nat := n % 2 ^ 32

/-- 32-bit bitwise complement. -/
def not32 (n : Nat) : Nat := 0xffffffff ^^^ n

/-- 32-bit left rotation. -/
def rotl32 (x c : Nat) : Nat := m32 (x <<< c) ||| (m32 x >>> (32 - c))

/-- One MD5 round `i` (0 ≤ i < 64) acting on state `(a, b, c, d)` with the
sixteen 32-bit message words `m` of the current chunk. -/
def md5Round (m : List Nat) (st : Nat × Nat × Nat × Nat) (i : Nat) :
    Nat × Nat × Nat × Nat :=
  let (a, b, c, d) := st
  let f :=
    if i < 16 then (b &&& c) ||| (not32 b &&& d)
    else if i < 32 then (d &&& b) ||| (not32 d &&& c)
    else if i < 48 then b ^^^ c ^^^ d
    else c ^^^ (b ||| not32 d)
  let g :=
    if i < 16 then i
    else if i < 32 then (5 * i + 1) % 16
    else if i < 48 then (3 * i + 5) % 16
    else (7 * i) % 16
  let tmp := m32 (f + a + (mapNth md5K i) + mapNth m g)
  let a := d
  let d := c
  let c := b
  let b := m32 (b + rotl32 tmp (mapNth md5S i))
  (a, b, c, d)
where
  /-- `l[i]` with default 0. -/
  mapNth (l : List Nat) (i : Nat) : Nat := l.getD i 0

/-- Interpret four bytes as a little-endian 32-bit word. -/
def le32 : List Nat → Nat
  | b0 :: b1 :: b2 :: b3 :: _ => b0 + b1 * 0x100 + b2 * 0x10000 + b3 * 0x1000000
  | [b0, b1, b2] => b0 + b1 * 0x100 + b2 * 0x10000
  | [b0, b1] => b0 + b1 * 0x100
  | [b0] => b0
  | [] => 0

/-- Split a byte list into chunks of `n + 1` bytes (structural recursion on a
fuel argument so that the definition reduces in the kernel; `chunksOf` supplies
fuel equal to the list length, which always suffices). -/
def chunksOfAux (n : Nat) : Nat → List Nat → List (List Nat)
  | 0, _ => []
  | _, [] => []
  | fuel + 1, b :: rest => (b :: rest.take n) :: chunksOfAux n fuel (rest.drop n)

/-- Split a byte list into chunks of `n + 1` bytes. -/
def chunksOf (n : Nat) (l : List Nat) : List (List Nat) :=
  chunksOfAux n l.length l

/-- MD5 padding: append `0x80`, zero-pad to 56 mod 64, then the original
length in bits as a 64-bit little-endian quantity. -/
def md5Pad (msg : List Nat) : List Nat :=
  let lenBits := msg.length * 8
  let padLen := (119 - msg.length % 64) % 64
  msg ++ 0x80 :: List.replicate padLen 0 ++
    (List.range 8).map fun i => lenBits >>> (8 * i) % 0x100

/-- Process one 64-byte chunk, updating the four-word digest state. -/
def md5Chunk (st : Nat × Nat × Nat × Nat) (chunk : List Nat) :
    Nat × Nat × Nat × Nat :=
  let m := (chunksOf 3 chunk).map le32
  let (a0, b0, c0, d0) := st
  let (a, b, c, d) := (List.range 64).foldl (md5Round m) st
  (m32 (a0 + a), m32 (b0 + b), m32 (c0 + c), m32 (d0 + d))

/-- MD5 digest of a byte list: the sixteen digest bytes. -/
def md5Bytes (msg : List Nat) : List Nat :=
  let (a, b, c, d) :=
    (chunksOf 63 (md5Pad msg)).foldl md5Chunk
      (0x67452301, 0xefcdab89, 0x98badcfe, 0x10325476)
  [a, b, c, d].flatMap fun w =>
    (List.range 4).map fun i => w >>> (8 * i) % 0x100

/-- Lowercase hexadecimal digit: `0`–`9` then `a`–`f` (Go's
`hex.EncodeToString` digit alphabet). -/
def hexDigit (n : Nat) : Char :=
  if n < 10 then Char.ofNat (48 + n) else Char.ofNat (87 + n)

/-- UTF-8 encoding of one code point (Go's `[]byte(string)` conversion). -/
def utf8Bytes (c : Nat) : List Nat :=
  if c < 0x80 then [c]
  else if c < 0x800 then [0xc0 + c / 0x40, 0x80 + c % 0x40]
  else if c < 0x10000 then
    [0xe0 + c / 0x1000, 0x80 + c / 0x40 % 0x40, 0x80 + c % 0x40]
  else
    [0xf0 + c / 0x40000, 0x80 + c / 0x1000 % 0x40,
     0x80 + c / 0x40 % 0x40, 0x80 + c % 0x40]

/-- The bytes of a string (UTF-8). -/
def strBytes (s : String) : List Nat :=
  s.data.flatMap fun c => utf8Bytes c.toNat

/-- `md5sum` from state.go: the lowercase-hex MD5 digest of a string. -/
def md5sum (data : String) : String :=
  String.mk <| (md5Bytes (strBytes data)).flatMap fun b =>
    [hexDigit (b / 16), hexDigit (b % 16)]

/-! ### Go's `net.SplitHostPort`

state.go calls `net.SplitHostPort` from the Go standard library, which is not
part of this repository. -/

/-- Index of the last occurrence of `c` in `l` (Go's `last` helper). -/
def lastIdx (l : List Char) (c : Char) : Option Nat :=
  match l.reverse.findIdx? (· = c) with
  | some j => some (l.length - 1 - j)
  | none => none

/-- Modelled from the spec: the spec's "host:port splitter" is the Go standard
library function `net.SplitHostPort` (external to this repository); this
follows its documented behavior — split at the last colon, `[host]:port`
bracket form for hosts containing colons, port required, host may be empty —
with all error returns collapsed to `none`. -/
def splitHostPort (hostport : String) : Option (String × String) :=
  let l := hostport.data
  match lastIdx l ':' with
  | none => none
  | some i =>
    match l with
    | [] => none
    | c0 :: _ =>
      if c0 = '[' then
        match l.findIdx? (· = ']') with
        | none => none
        | some e =>
          if e + 1 = l.length then none
          else if e + 1 = i then
            if ((l.drop 1).contains '[') then none
            else if ((l.drop (e + 1)).contains ']') then none
            else some (String.mk ((l.drop 1).take (e - 1)), String.mk (l.drop (i + 1)))
          else none
      else
        let host := l.take i
        if host.contains ':' then none
        else if l.contains '[' then none
        else if l.contains ']' then none
        else some (String.mk host, String.mk (l.drop (i + 1)))

/-! ### Event kinds and events (state.go lines 15–82) -/

/-- `EventKindUp = 1 << iota`. -/
def EventKindUp : Nat := 1
/-- `EventKindUpdate`. -/
def EventKindUpdate : Nat := 2
/-- `EventKindDown`. -/
def EventKindDown : Nat := 4
/-- `EventKindLeader`. -/
def EventKindLeader : Nat := 8
/-- Go's `EventKindAll` is `^EventKind(0)`; as a filter mask only the four
kind bits matter, so the model uses their union. -/
def EventKindAll : Nat := 15

/-- `eventKindUpdate` from state.go. -/
def eventKindUpdate (existing : Bool) : Nat :=
  if existing then EventKindUpdate else EventKindUp

/-! ### Instance (state.go lines 84–161) -/

/-- `Instance` from state.go.  `Meta` (a Go `map[string]string`) is an
association list; `Index` (`uint64`) is a `Nat`. -/
structure Instance where
  ID : String
  Addr : String
  Proto : String
  Meta : List (String × String)
  Index : Nat
  deriving DecidableEq, Repr

/-- `mapEqual` from state.go: equal length and pointwise containment. -/
def mapEqual (x y : List (String × String)) : Bool :=
  x.length == y.length && x.all fun kv => mapLookup y kv.1 == some kv.2

/-- `Instance.Equal` from state.go: `Addr`, `Proto` and `Meta` agree
(`ID` and `Index` are not compared). -/
def Instance.Equal (inst other : Instance) : Bool :=
  inst.Addr == other.Addr && inst.Proto == other.Proto &&
    mapEqual inst.Meta other.Meta

/-- The error kinds surfaced by instance validation.  `invalidAddr` stands
for any error returned by the host:port splitter. -/
inductive ValidError
  | unsetProto
  | invalidProto
  | invalidAddr
  | idMismatch (expected : String)
  deriving DecidableEq, Repr

/-- `Instance.validProto` from state.go: `ErrUnsetProto` on the empty string,
`ErrInvalidProto` when any rune is outside `a`–`z` and `0`–`9`. -/
def Instance.validProto (inst : Instance) : Except ValidError Unit :=
  if inst.Proto = "" then .error .unsetProto
  else if inst.Proto.data.any (fun r => (r < 'a' || r > 'z') && (r < '0' || r > '9'))
  then .error .invalidProto
  else .ok ()

/-- `Instance.id` from state.go: `md5sum(inst.Proto + "-" + inst.Addr)`. -/
def Instance.id (inst : Instance) : String :=
  md5sum (inst.Proto ++ "-" ++ inst.Addr)

/-- `Instance.Valid` from state.go: proto check, then address split, then
derived-ID check, returning the first failure. -/
def Instance.Valid (inst : Instance) : Except ValidError Unit :=
  match inst.validProto with
  | .error e => .error e
  | .ok () =>
    match splitHostPort inst.Addr with
    | none => .error .invalidAddr
    | some _ =>
      let expected := inst.id
      if inst.ID ≠ expected then .error (.idMismatch expected) else .ok ()

/-- `Event` from state.go.  The embedded `*Instance` is never nil on any
event the registry emits, so it is a plain field here. -/
structure Event where
  Service : String
  Kind : Nat
  Inst : Instance
  deriving DecidableEq, Repr

/-- The event list produced for an optional leader: a single `leader` event
when a leader is present, nothing otherwise. -/
def leaderEvents (name : String) : Option Instance → List Event
  | some l => [Event.mk name EventKindLeader l]
  | none => []

/-! ### service (state.go lines 197–273) -/

/-- `service` from state.go: instance ID → instance, plus leader
bookkeeping. -/
structure service where
  instances : List (String × Instance)
  leaderID : String
  leaderIndex : Nat
  notifyLeader : Bool
  deriving DecidableEq, Repr

/-- `newService` from state.go (also models the zero `&service{}`). -/
def newService : service :=
  { instances := [], leaderID := "", leaderIndex := 0, notifyLeader := false }

/-- `service.maybeSetLeader` from state.go. -/
def service.maybeSetLeader (s : service) (inst : Instance) : service :=
  if s.leaderIndex = 0 ∨ s.leaderIndex > inst.Index then
    { s with notifyLeader := s.notifyLeader || inst.ID != s.leaderID,
             leaderID := inst.ID,
             leaderIndex := inst.Index }
  else s

/-- `service.maybePickLeader` from state.go: apply `maybeSetLeader` to each
registered instance (Go map iteration order is unspecified; the list order is
one admissible order). -/
def service.maybePickLeader (s : service) : service :=
  s.instances.foldl (fun acc p => acc.maybeSetLeader p.2) s

/-- `service.AddInstance` from state.go: returns the previous binding and the
updated service. -/
def service.AddInstance (s : service) (inst : Instance) :
    Option Instance × service :=
  let old := mapLookup s.instances inst.ID
  let s' := { s with instances := mapInsert s.instances inst.ID inst }
  (old, s'.maybeSetLeader inst)

/-- `service.RemoveInstance` from state.go: returns the removed instance (or
`none`) and the updated service. -/
def service.RemoveInstance (s : service) (id : String) :
    Option Instance × service :=
  match mapLookup s.instances id with
  | none => (none, s)
  | some inst =>
    let s' := { s with instances := mapDelete s.instances id }
    if inst.ID = s.leaderID then
      (some inst,
       ({ s' with leaderID := "", leaderIndex := 0 }).maybePickLeader)
    else (some inst, s')

/-- `service.SetInstances` from state.go. -/
def service.SetInstances (s : service) (data : List (String × Instance)) :
    service :=
  let s' :=
    if (mapLookup data s.leaderID).isNone then
      { s with leaderID := "", leaderIndex := 0 }
    else s
  ({ s' with instances := data }).maybePickLeader

/-- `service.BroadcastLeader` from state.go: when `notifyLeader` is set,
clear it and return the current leader lookup. -/
def service.BroadcastLeader (s : service) : Option Instance × service :=
  if s.notifyLeader then
    (mapLookup s.instances s.leaderID, { s with notifyLeader := false })
  else (none, s)

/-- `service.Leader` from state.go, for a non-nil receiver. -/
def service.Leader (s : service) : Option Instance :=
  mapLookup s.instances s.leaderID

/-- `(*service).Leader` including its nil-receiver guard (`if s == nil`). -/
def leaderOpt : Option service → Option Instance
  | none => none
  | some s => s.Leader

/-! ### State (state.go lines 178–442)

Mutations return the events they hand to `broadcast`, in emission order.
A `none` result models a Go runtime panic (nil-pointer dereference). -/

/-- `State` from state.go.  The subscriber table is not part of the model;
events are returned explicitly instead of being pushed to channels. -/
structure State where
  services : List (String × service)
  deriving DecidableEq, Repr

/-- `NewState` from state.go. -/
def NewState : State := { services := [] }

/-- `State.AddService` from state.go: idempotent creation, no events. -/
def State.AddService (st : State) (name : String) : State :=
  match mapLookup st.services name with
  | some _ => st
  | none => { services := mapInsert st.services name newService }

/-- `State.broadcastLeader` from state.go.  `none` models the nil-pointer
dereference inside `BroadcastLeader` when the service is absent. -/
def State.broadcastLeader (st : State) (name : String) :
    Option (State × List Event) :=
  match mapLookup st.services name with
  | none => none
  | some svc =>
    let (leader?, svc') := svc.BroadcastLeader
    let st' : State := { services := mapInsert st.services name svc' }
    match leader? with
    | some leader => some (st', [Event.mk name EventKindLeader leader])
    | none => some (st', [])

/-- `State.RemoveService` from state.go: one `down` per registered instance,
then delete the entry.  `none` models the panic on
`s.services[name].instances` when the name is unknown. -/
def State.RemoveService (st : State) (name : String) :
    Option (State × List Event) :=
  match mapLookup st.services name with
  | none => none
  | some svc =>
    some ({ services := mapDelete st.services name },
          svc.instances.map fun p => Event.mk name EventKindDown p.2)

/-- `State.AddInstance` from state.go. -/
def State.AddInstance (st : State) (name : String) (inst : Instance) :
    Option (State × List Event) :=
  let data := (mapLookup st.services name).getD newService
  let (old, data') := data.AddInstance inst
  let st' : State := { services := mapInsert st.services name data' }
  let evs := match old with
    | none => [Event.mk name (eventKindUpdate false) inst]
    | some o =>
      if inst.Equal o then []
      else [Event.mk name (eventKindUpdate true) inst]
  match st'.broadcastLeader name with
  | none => none
  | some (st'', levs) => some (st'', evs ++ levs)

/-- `State.RemoveInstance` from state.go. -/
def State.RemoveInstance (st : State) (name id : String) :
    Option (State × List Event) :=
  match mapLookup st.services name with
  | none => some (st, [])
  | some data =>
    let (inst?, data') := data.RemoveInstance id
    match inst? with
    | none => some (st, [])
    | some inst =>
      let st' : State := { services := mapInsert st.services name data' }
      match st'.broadcastLeader name with
      | none => none
      | some (st'', levs) =>
        some (st'', Event.mk name EventKindDown inst :: levs)

/-- `State.SetService` from state.go.  `data = none` models a nil
`[]*Instance` slice.  `none` results model the panic in `broadcastLeader`
(reached when the name is unknown and `data` is nil). -/
def State.SetService (st : State) (name : String)
    (data : Option (List Instance)) : Option (State × List Event) :=
  let ok := (mapLookup st.services name).isSome
  let oldData := match mapLookup st.services name with
    | some svc => svc.instances
    | none => []
  let newData := match data with
    | none => []
    | some l => l.foldl (fun m inst => mapInsert m inst.ID inst) []
  let st' : State := match data with
    | none => { services := mapDelete st.services name }
    | some _ =>
      let svc0 := (mapLookup st.services name).getD newService
      { services := mapInsert st.services name (svc0.SetInstances newData) }
  let dataL := data.getD []
  if ok then
    let diffEvs := dataL.filterMap fun inst =>
      match mapLookup oldData inst.ID with
      | none => some (Event.mk name (eventKindUpdate false) inst)
      | some old =>
        if inst.Equal old then none
        else some (Event.mk name (eventKindUpdate true) inst)
    let downEvs := oldData.filterMap fun p =>
      if (mapLookup newData p.1).isNone then
        some (Event.mk name EventKindDown p.2)
      else none
    if dataL.length > 0 then
      match st'.broadcastLeader name with
      | none => none
      | some (st'', levs) => some (st'', diffEvs ++ downEvs ++ levs)
    else some (st', diffEvs ++ downEvs)
  else
    let ups := dataL.map fun inst => Event.mk name EventKindUp inst
    match st'.broadcastLeader name with
    | none => none
    | some (st'', levs) => some (st'', ups ++ levs)

/-- `State.getLocked` from state.go: the instances of a service, empty for an
unknown name. -/
def State.getLocked (st : State) (name : String) : List Instance :=
  match mapLookup st.services name with
  | none => []
  | some data => data.instances.map Prod.snd

/-- `State.Get` from state.go. -/
def State.Get (st : State) (name : String) : List Instance :=
  st.getLocked name

/-- `State.GetLeader` from state.go (nil-guarded `Leader`). -/
def State.GetLeader (st : State) (name : String) : Option Instance :=
  leaderOpt (mapLookup st.services name)

/-- The snapshot prefix of `State.Subscribe` from state.go: the events sent
on `ch` before the subscription starts receiving live events (the
channel/locking machinery is outside the model; this captures exactly the
sends performed by `Subscribe` itself). -/
def State.subscribeSnapshot (st : State) (name : String) (sendCurrent : Bool)
    (kinds : Nat) : List Event :=
  let sendCurrent := sendCurrent &&
    (kinds &&& (EventKindUp ||| EventKindUpdate ||| EventKindLeader)) != 0
  let current := if sendCurrent then st.getLocked name else []
  let currentLeader :=
    if sendCurrent then leaderOpt (mapLookup st.services name) else none
  let ups :=
    if (kinds &&& (EventKindUp ||| EventKindUpdate)) != 0 then
      current.map fun inst => Event.mk name EventKindUp inst
    else []
  let levs :=
    if (kinds &&& EventKindLeader) != 0 then leaderEvents name currentLeader
    else []
  ups ++ levs

/-! ### Service-table mutation sequences

The spec's leader invariants quantify over "any sequence of mutations"
against a service table (`AddInstance`, `RemoveInstance`, `SetInstances`),
under the upstream guarantees on `Index` values. -/

/-- One service-table mutation. -/
inductive Mutation
  | addInstance (inst : Instance)
  | removeInstance (id : String)
  | setInstances (data : List (String × Instance))
  deriving DecidableEq, Repr

/-- Apply one mutation to a service table (dropping the returned old/removed
instance, which only feeds event generation). -/
def applyMutation (s : service) : Mutation → service
  | .addInstance inst => (s.AddInstance inst).2
  | .removeInstance id => (s.RemoveInstance id).2
  | .setInstances data => s.SetInstances data

/-- Apply a sequence of mutations in order. -/
def applyMutations (s : service) (ms : List Mutation) : service :=
  ms.foldl applyMutation s

/-- Boolean key-uniqueness of an association list. -/
def keysNodupB : List (String × α) → Bool
  | [] => true
  | p :: rest => rest.all (fun q => q.1 != p.1) && keysNodupB rest

/-- The upstream contract on one instance handed in, relative to the current
instance table: strictly positive `Index`; an already-registered instance
with the same `ID` has the same `Index` (no ID is re-added with a different
`Index`); distinct `ID`s never share an `Index` (index uniqueness). -/
def instOk (tbl : List (String × Instance)) (inst : Instance) : Bool :=
  0 < inst.Index &&
  tbl.all fun p => (p.1 != inst.ID || p.2.Index == inst.Index) &&
                   (p.2.Index != inst.Index || p.1 == inst.ID)

/-- The upstream contract on a `SetInstances` map: keyed by instance `ID`
with unique keys (as the registry builds it in `SetService`), every instance
satisfying `instOk`, and index uniqueness within the map. -/
def dataOk (tbl data : List (String × Instance)) : Bool :=
  keysNodupB data &&
  data.all (fun p => p.1 == p.2.ID && instOk tbl p.2) &&
  data.all fun p => data.all fun q => p.1 == q.1 || p.2.Index != q.2.Index

/-- The upstream contract for one mutation against the current table. -/
def mutOk (s : service) : Mutation → Bool
  | .addInstance inst => instOk s.instances inst
  | .removeInstance _ => true
  | .setInstances data => dataOk s.instances data

/-- The upstream contract along a whole mutation sequence. -/
def seqOk (s : service) : List Mutation → Bool
  | [] => true
  | m :: ms => mutOk s m && seqOk (applyMutation s m) ms

/-! ### Specification-side characterizations -/

/-- The spec's proto grammar: non-empty, every character a lowercase ASCII
letter or digit. -/
def specProtoOk (p : String) : Prop :=
  p ≠ "" ∧ ∀ c ∈ p.data, ('a' ≤ c ∧ c ≤ 'z') ∨ ('0' ≤ c ∧ c ≤ '9')

instance (p : String) : Decidable (specProtoOk p) := by
  unfold specProtoOk; infer_instance

/-- The last element of `l` whose `ID` is `id`, if any (the spec's "last
occurrence of each duplicated ID"). -/
def lastOcc (l : List Instance) (id : String) : Option Instance :=
  l.reverse.find? fun inst => inst.ID == id

/-! ### Concrete inputs used by witnesses and counterexamples -/

/-- A small concrete instance (`Index` 5). -/
def iW1 : Instance :=
  { ID := "a", Addr := "10.0.0.1:80", Proto := "http", Meta := [], Index := 5 }

/-- A second concrete instance (`Index` 7). -/
def iW2 : Instance :=
  { ID := "b", Addr := "10.0.0.2:80", Proto := "http", Meta := [], Index := 7 }

/-- A service table holding the single instance `iW1`, with settled leader. -/
def svcWeb : service :=
  { instances := [("a", iW1)], leaderID := "a", leaderIndex := 5,
    notifyLeader := false }

/-- A registry holding one service `web` with the single instance `iW1`. -/
def stWeb : State := { services := [("web", svcWeb)] }

/-- A concrete valid instance whose `ID` is the derived MD5 digest. -/
def iHttp : Instance :=
  { ID := md5sum "http-10.0.0.1:80", Addr := "10.0.0.1:80", Proto := "http",
    Meta := [("k", "v")], Index := 5 }

/-- `iHttp` re-registered with a different `Index` only. -/
def iHttp9 : Instance :=
  { ID := md5sum "http-10.0.0.1:80", Addr := "10.0.0.1:80", Proto := "http",
    Meta := [("k", "v")], Index := 9 }

/-- A service table holding the single valid instance `iHttp`. -/
def svcHttp : service :=
  { instances := [(iHttp.ID, iHttp)], leaderID := iHttp.ID,
    leaderIndex := 5, notifyLeader := false }

/-- A registry holding `web` with the single valid instance `iHttp`. -/
def stHttp : State := { services := [("web", svcHttp)] }

/-- A service table with a pending (not yet broadcast) leader notification. -/
def svcPending : service :=
  { instances := [("a", iW1)], leaderID := "a", leaderIndex := 5,
    notifyLeader := true }

/-- `iW1` with a smaller `Index`, same `ID`. -/
def iW1small : Instance := { iW1 with Index := 3 }

/-- First of two instances sharing the `ID` `d`. -/
def iDup1 : Instance :=
  { ID := "d", Addr := "1.1.1.1:1", Proto := "tcp", Meta := [], Index := 1 }

/-- Second instance with the duplicated `ID` `d`. -/
def iDup2 : Instance :=
  { ID := "d", Addr := "1.1.1.1:2", Proto := "tcp", Meta := [], Index := 2 }

/-! ### Lemmas about the association-list map operations -/

theorem mapLookup_insert_self (m : List (String × α)) (k : String) (v : α) :
    mapLookup (mapInsert m k v) k = some v := by
  induction m with
  | nil => simp [mapInsert, mapLookup]
  | cons p rest ih =>
    by_cases h : p.1 = k
    · simp [mapInsert, mapLookup, h]
    · simp [mapInsert, mapLookup, h, ih]

theorem mapLookup_insert_ne (m : List (String × α)) (k k' : String) (v : α)
    (h : k' ≠ k) : mapLookup (mapInsert m k v) k' = mapLookup m k' := by
  induction m with
  | nil => simp [mapInsert, mapLookup, Ne.symm h]
  | cons p rest ih =>
    by_cases hp : p.1 = k
    · subst hp
      simp [mapInsert, mapLookup, Ne.symm h]
    · by_cases hp' : p.1 = k'
      · simp [mapInsert, mapLookup, hp, hp', h]
      · simp [mapInsert, mapLookup, hp, hp', ih]

theorem mem_of_mem_mapInsert {m : List (String × α)} {k : String} {v : α}
    {p : String × α} (h : p ∈ mapInsert m k v) : p = (k, v) ∨ p ∈ m := by
  induction m with
  | nil => simpa [mapInsert] using h
  | cons q rest ih =>
    by_cases hq : q.1 = k
    · simp only [mapInsert, if_pos hq, List.mem_cons] at h
      rcases h with h | h
      · exact .inl h
      · exact .inr (List.mem_cons_of_mem _ h)
    · simp only [mapInsert, if_neg hq, List.mem_cons] at h
      rcases h with h | h
      · exact .inr (h ▸ List.mem_cons_self _ _)
      · rcases ih h with h' | h'
        · exact .inl h'
        · exact .inr (List.mem_cons_of_mem _ h')

theorem self_mem_mapInsert (m : List (String × α)) (k : String) (v : α) :
    (k, v) ∈ mapInsert m k v := by
  induction m with
  | nil => simp [mapInsert]
  | cons q rest ih =>
    by_cases hq : q.1 = k
    · simp [mapInsert, hq]
    · simp only [mapInsert, if_neg hq, List.mem_cons]
      exact .inr ih

theorem mem_mapInsert_of_mem {m : List (String × α)} {k : String} {v : α}
    {p : String × α} (hp : p ∈ m) (hne : p.1 ≠ k) : p ∈ mapInsert m k v := by
  induction m with
  | nil => cases hp
  | cons q rest ih =>
    by_cases hq : q.1 = k
    · rcases List.mem_cons.1 hp with h | h
      · exact absurd (h ▸ hq) hne
      · simp only [mapInsert, if_pos hq, List.mem_cons]
        exact .inr h
    · rcases List.mem_cons.1 hp with h | h
      · simp [mapInsert, if_neg hq, h]
      · simp only [mapInsert, if_neg hq, List.mem_cons]
        exact .inr (ih h)

theorem mapInsert_ne_nil (m : List (String × α)) (k : String) (v : α) :
    mapInsert m k v ≠ [] := by
  cases m with
  | nil => simp [mapInsert]
  | cons q rest =>
    by_cases hq : q.1 = k <;> simp [mapInsert, hq]

theorem mem_of_mem_mapDelete {m : List (String × α)} {k : String}
    {p : String × α} (h : p ∈ mapDelete m k) : p ∈ m := by
  induction m with
  | nil => simpa [mapDelete] using h
  | cons q rest ih =>
    by_cases hq : q.1 = k
    · simp only [mapDelete, if_pos hq] at h
      exact List.mem_cons_of_mem _ h
    · simp only [mapDelete, if_neg hq, List.mem_cons] at h
      rcases h with h | h
      · exact h ▸ List.mem_cons_self _ _
      · exact List.mem_cons_of_mem _ (ih h)

theorem mem_mapDelete_of_mem {m : List (String × α)} {k : String}
    {p : String × α} (hp : p ∈ m) (hne : p.1 ≠ k) : p ∈ mapDelete m k := by
  induction m with
  | nil => cases hp
  | cons q rest ih =>
    by_cases hq : q.1 = k
    · rcases List.mem_cons.1 hp with h | h
      · exact absurd (h ▸ hq) hne
      · simpa [mapDelete, if_pos hq] using h
    · rcases List.mem_cons.1 hp with h | h
      · simp [mapDelete, if_neg hq, h]
      · simp only [mapDelete, if_neg hq, List.mem_cons]
        exact .inr (ih h)

theorem mapLookup_some_mem {m : List (String × α)} {k : String} {v : α}
    (h : mapLookup m k = some v) : (k, v) ∈ m := by
  induction m with
  | nil => simp [mapLookup] at h
  | cons q rest ih =>
    by_cases hq : q.1 = k
    · simp only [mapLookup, if_pos hq] at h
      have : (k, v) = q := by
        obtain ⟨q1, q2⟩ := q
        simp_all
      rw [this]
      exact List.mem_cons_self _ _
    · simp only [mapLookup, if_neg hq] at h
      exact List.mem_cons_of_mem _ (ih h)

theorem mapLookup_eq_some_of_mem {m : List (String × α)} {k : String} {v : α}
    (hnd : keysNodupB m = true) (hp : (k, v) ∈ m) : mapLookup m k = some v := by
  induction m with
  | nil => cases hp
  | cons q rest ih =>
    simp only [keysNodupB, Bool.and_eq_true, List.all_eq_true] at hnd
    rcases List.mem_cons.1 hp with h | h
    · simp [mapLookup, ← h]
    · have hne : q.1 ≠ k := by
        have h2 := hnd.1 _ h
        simp only [bne_iff_ne] at h2
        exact Ne.symm h2
      simp only [mapLookup, if_neg hne]
      exact ih hnd.2 h

theorem keysNodupB_mapInsert {m : List (String × α)} (k : String) (v : α)
    (hnd : keysNodupB m = true) : keysNodupB (mapInsert m k v) = true := by
  induction m with
  | nil => simp [mapInsert, keysNodupB]
  | cons q rest ih =>
    simp only [keysNodupB, Bool.and_eq_true, List.all_eq_true] at hnd
    by_cases hq : q.1 = k
    · simp only [mapInsert, if_pos hq, keysNodupB, Bool.and_eq_true,
        List.all_eq_true]
      refine ⟨fun p hp => ?_, hnd.2⟩
      have h2 := hnd.1 p hp
      simp only [bne_iff_ne] at h2 ⊢
      rw [← hq]
      exact h2
    · simp only [mapInsert, if_neg hq, keysNodupB, Bool.and_eq_true,
        List.all_eq_true]
      refine ⟨fun p hp => ?_, ih hnd.2⟩
      rcases mem_of_mem_mapInsert hp with h | h
      · simp only [h, bne_iff_ne]
        exact fun hh => hq hh.symm
      · exact hnd.1 p h

theorem keysNodupB_mapDelete {m : List (String × α)} (k : String)
    (hnd : keysNodupB m = true) : keysNodupB (mapDelete m k) = true := by
  induction m with
  | nil => simp [mapDelete, keysNodupB]
  | cons q rest ih =>
    simp only [keysNodupB, Bool.and_eq_true, List.all_eq_true] at hnd
    by_cases hq : q.1 = k
    · simpa [mapDelete, if_pos hq] using hnd.2
    · simp only [mapDelete, if_neg hq, keysNodupB, Bool.and_eq_true,
        List.all_eq_true]
      exact ⟨fun p hp => hnd.1 p (mem_of_mem_mapDelete hp), ih hnd.2⟩

theorem mapLookup_mapDelete_of_none {m : List (String × α)} {k' : String}
    (k : String) (h : mapLookup m k' = none) :
    mapLookup (mapDelete m k) k' = none := by
  induction m with
  | nil => simp [mapDelete, mapLookup]
  | cons q rest ih =>
    by_cases hq' : q.1 = k'
    · simp [mapLookup, if_pos hq'] at h
    · simp only [mapLookup, if_neg hq'] at h
      by_cases hq : q.1 = k
      · simpa [mapDelete, if_pos hq] using h
      · simp only [mapDelete, if_neg hq, mapLookup, if_neg hq']
        exact ih h

/-! ### Lemmas about `maybeSetLeader` and `maybePickLeader` -/

theorem maybeSetLeader_instances (s : service) (inst : Instance) :
    (s.maybeSetLeader inst).instances = s.instances := by
  unfold service.maybeSetLeader
  split <;> rfl

/-- The fold underlying `maybePickLeader`, characterized: it never touches
`instances`; a positive `leaderIndex` stays positive and never increases; the
final `leaderIndex` is a lower bound for every visited index; the final
leader pair is either the initial one or comes from a visited instance; and
from an unset leader a non-empty visit always elects somebody (given positive
indices). -/
theorem pickFold_spec (l : List (String × Instance)) (s : service)
    (hpos : ∀ p ∈ l, 0 < p.2.Index) :
    (l.foldl (fun acc p => acc.maybeSetLeader p.2) s).instances = s.instances ∧
    (0 < s.leaderIndex →
      0 < (l.foldl (fun acc p => acc.maybeSetLeader p.2) s).leaderIndex ∧
      (l.foldl (fun acc p => acc.maybeSetLeader p.2) s).leaderIndex ≤ s.leaderIndex) ∧
    (∀ p ∈ l,
      (l.foldl (fun acc p => acc.maybeSetLeader p.2) s).leaderIndex ≤ p.2.Index) ∧
    (((l.foldl (fun acc p => acc.maybeSetLeader p.2) s).leaderID = s.leaderID ∧
      (l.foldl (fun acc p => acc.maybeSetLeader p.2) s).leaderIndex = s.leaderIndex) ∨
      ∃ p ∈ l, (l.foldl (fun acc p => acc.maybeSetLeader p.2) s).leaderID = p.2.ID ∧
        (l.foldl (fun acc p => acc.maybeSetLeader p.2) s).leaderIndex = p.2.Index) ∧
    (s.leaderIndex = 0 → l ≠ [] →
      0 < (l.foldl (fun acc p => acc.maybeSetLeader p.2) s).leaderIndex) := by
  induction l generalizing s with
  | nil => simp
  | cons q rest ih =>
    have hqpos : 0 < q.2.Index := hpos q (List.mem_cons_self _ _)
    have hpos' : ∀ p ∈ rest, 0 < p.2.Index :=
      fun p hp => hpos p (List.mem_cons_of_mem _ hp)
    simp only [List.foldl_cons]
    set s1 := s.maybeSetLeader q.2 with hs1
    obtain ⟨ih1, ih2, ih3, ih4, ih5⟩ := ih s1 hpos'
    have hs1inst : s1.instances = s.instances := maybeSetLeader_instances s q.2
    have hstep : (s1.leaderID = q.2.ID ∧ s1.leaderIndex = q.2.Index ∧
        (s.leaderIndex = 0 ∨ q.2.Index < s.leaderIndex)) ∨
        (s1 = s ∧ s.leaderIndex ≠ 0 ∧ s.leaderIndex ≤ q.2.Index) := by
      by_cases hc : s.leaderIndex = 0 ∨ s.leaderIndex > q.2.Index
      · refine .inl ⟨?_, ?_, hc⟩
        · rw [hs1]; unfold service.maybeSetLeader; rw [if_pos hc]
        · rw [hs1]; unfold service.maybeSetLeader; rw [if_pos hc]
      · push_neg at hc
        refine .inr ⟨?_, hc.1, hc.2⟩
        rw [hs1]
        unfold service.maybeSetLeader
        rw [if_neg (by push_neg; exact hc)]
    have hs1pos : 0 < s1.leaderIndex := by
      rcases hstep with ⟨_, h2, _⟩ | ⟨he, h0, _⟩
      · rw [h2]; exact hqpos
      · rw [he]; exact Nat.pos_of_ne_zero h0
    have hs1le : s1.leaderIndex ≤ q.2.Index := by
      rcases hstep with ⟨_, h2, _⟩ | ⟨he, _, hle⟩
      · rw [h2]
      · rw [he]; exact hle
    have hfinle : (rest.foldl (fun acc p => acc.maybeSetLeader p.2) s1).leaderIndex ≤
        s1.leaderIndex := (ih2 hs1pos).2
    refine ⟨ih1.trans hs1inst, ?_, ?_, ?_, ?_⟩
    · intro hspos
      refine ⟨(ih2 hs1pos).1, hfinle.trans ?_⟩
      rcases hstep with ⟨_, h2, h3⟩ | ⟨he, _, _⟩
      · rw [h2]
        rcases h3 with h3 | h3
        · omega
        · exact h3.le
      · rw [he]
    · intro p hp
      rcases List.mem_cons.1 hp with h | h
      · rw [h]
        exact hfinle.trans hs1le
      · exact ih3 p h
    · rcases ih4 with ⟨hid, hidx⟩ | ⟨p, hp, hid, hidx⟩
      · rcases hstep with ⟨h1, h2, _⟩ | ⟨he, _, _⟩
        · exact .inr ⟨q, List.mem_cons_self _ _, hid.trans h1, hidx.trans h2⟩
        · exact .inl ⟨hid.trans (congrArg service.leaderID he),
            hidx.trans (congrArg service.leaderIndex he)⟩
      · exact .inr ⟨p, List.mem_cons_of_mem _ hp, hid, hidx⟩
    · intro _ _
      exact (ih2 hs1pos).1

/-! ### The leader invariant -/

/-- The inductive invariant tying a service table's leader bookkeeping to its
instance map: keys carry their instance's `ID` and all indices are positive;
keys are unique; the leader is unset exactly on the empty table; on a
non-empty table `leaderID`/`leaderIndex` name a registered instance whose
index is minimal. -/
structure Inv (s : service) : Prop where
  coh : ∀ p ∈ s.instances, p.2.ID = p.1 ∧ 0 < p.2.Index
  nodup : keysNodupB s.instances = true
  empty0 : s.instances = [] → s.leaderIndex = 0
  leadIn : s.instances ≠ [] →
    ∃ p ∈ s.instances, p.1 = s.leaderID ∧ p.2.Index = s.leaderIndex
  leadMin : ∀ p ∈ s.instances, s.leaderIndex ≤ p.2.Index

theorem Inv.leadPos {s : service} (hinv : Inv s) (hne : s.instances ≠ []) :
    0 < s.leaderIndex := by
  obtain ⟨p, hp, -, hidx⟩ := hinv.leadIn hne
  have := (hinv.coh p hp).2
  omega

theorem Inv.nil_of_zero {s : service} (hinv : Inv s) (h : s.leaderIndex = 0) :
    s.instances = [] := by
  by_contra hne
  have := hinv.leadPos hne
  omega

theorem inv_newService : Inv newService := by
  constructor <;> simp [newService, keysNodupB]

/-- Decoded form of `instOk`. -/
theorem instOk_iff {tbl : List (String × Instance)} {inst : Instance} :
    instOk tbl inst = true ↔
      0 < inst.Index ∧ ∀ p ∈ tbl,
        (p.1 ≠ inst.ID ∨ p.2.Index = inst.Index) ∧
        (p.2.Index ≠ inst.Index ∨ p.1 = inst.ID) := by
  simp [instOk, List.all_eq_true, bne_iff_ne, Bool.or_eq_true, beq_iff_eq,
    and_assoc]

theorem inv_addInstance (s : service) (inst : Instance) (hinv : Inv s)
    (hok : instOk s.instances inst = true) : Inv (s.AddInstance inst).2 := by
  rw [instOk_iff] at hok
  show Inv (({ s with
    instances := mapInsert s.instances inst.ID inst }).maybeSetLeader inst)
  unfold service.maybeSetLeader
  by_cases hc : ({ s with instances := mapInsert s.instances inst.ID inst } :
      service).leaderIndex = 0 ∨
      ({ s with instances := mapInsert s.instances inst.ID inst } :
      service).leaderIndex > inst.Index
  · rw [if_pos hc]
    constructor
    · intro p hp
      rcases mem_of_mem_mapInsert hp with h | h
      · rw [h]; exact ⟨rfl, hok.1⟩
      · exact hinv.coh p h
    · exact keysNodupB_mapInsert _ _ hinv.nodup
    · intro h
      exact absurd h (mapInsert_ne_nil _ _ _)
    · intro _
      exact ⟨(inst.ID, inst), self_mem_mapInsert _ _ _, rfl, rfl⟩
    · intro p hp
      rcases mem_of_mem_mapInsert hp with h | h
      · rw [h]
      · rcases hc with h0 | hgt
        · rw [hinv.nil_of_zero h0] at h
          cases h
        · exact le_of_lt (lt_of_lt_of_le hgt (hinv.leadMin p h))
  · rw [if_neg hc]
    push_neg at hc
    have hne_old : s.instances ≠ [] := by
      intro h
      exact hc.1 (hinv.empty0 h)
    obtain ⟨p₀, hp₀, hp₀id, hp₀idx⟩ := hinv.leadIn hne_old
    constructor
    · intro p hp
      rcases mem_of_mem_mapInsert hp with h | h
      · rw [h]; exact ⟨rfl, hok.1⟩
      · exact hinv.coh p h
    · exact keysNodupB_mapInsert _ _ hinv.nodup
    · intro h
      exact absurd h (mapInsert_ne_nil _ _ _)
    · intro _
      by_cases hkey : p₀.1 = inst.ID
      · have hidx : p₀.2.Index = inst.Index := by
          rcases (hok.2 p₀ hp₀).1 with h | h
          · exact absurd hkey h
          · exact h
        exact ⟨(inst.ID, inst), self_mem_mapInsert _ _ _,
          hkey ▸ hp₀id, hidx ▸ hp₀idx⟩
      · exact ⟨p₀, mem_mapInsert_of_mem hp₀ hkey, hp₀id, hp₀idx⟩
    · intro p hp
      rcases mem_of_mem_mapInsert hp with h | h
      · rw [h]; exact hc.2
      · exact hinv.leadMin p h

/-- A `maybePickLeader` run started from a cleared leader (`leaderIndex = 0`)
restores the invariant on any well-formed table. -/
theorem inv_pick_from_zero {s₂ : service}
    (hcoh : ∀ p ∈ s₂.instances, p.2.ID = p.1 ∧ 0 < p.2.Index)
    (hnd : keysNodupB s₂.instances = true)
    (h0 : s₂.leaderIndex = 0) : Inv s₂.maybePickLeader := by
  have hpos : ∀ p ∈ s₂.instances, 0 < p.2.Index := fun p hp => (hcoh p hp).2
  obtain ⟨hi, -, hmin, horig, helect⟩ := pickFold_spec s₂.instances s₂ hpos
  have hi' : s₂.maybePickLeader.instances = s₂.instances := hi
  constructor
  · rw [hi']; exact hcoh
  · rw [hi']; exact hnd
  · intro h
    rw [hi'] at h
    rcases horig with ⟨-, hidx⟩ | ⟨p, hp, -, -⟩
    · exact hidx.trans h0
    · rw [h] at hp
      cases hp
  · intro hne
    rw [hi'] at hne ⊢
    have hposf := helect h0 hne
    rcases horig with ⟨-, hidx⟩ | ⟨p, hp, hid, hidx⟩
    · rw [hidx, h0] at hposf
      cases hposf
    · exact ⟨p, hp, ((hcoh p hp).1).symm.trans hid.symm, hidx.symm⟩
  · intro p hp
    rw [hi'] at hp
    exact hmin p hp

theorem inv_removeInstance (s : service) (id : String) (hinv : Inv s) :
    Inv (s.RemoveInstance id).2 := by
  unfold service.RemoveInstance
  cases hl : mapLookup s.instances id with
  | none => exact hinv
  | some inst =>
    dsimp only
    have hmem := mapLookup_some_mem hl
    have hcoh₀ := hinv.coh _ hmem
    have hinstid : inst.ID = id := hcoh₀.1
    have hcoh : ∀ p ∈ mapDelete s.instances id, p.2.ID = p.1 ∧ 0 < p.2.Index :=
      fun p hp => hinv.coh p (mem_of_mem_mapDelete hp)
    have hnd := keysNodupB_mapDelete (m := s.instances) id hinv.nodup
    by_cases hid : inst.ID = s.leaderID
    · rw [if_pos hid]
      exact inv_pick_from_zero hcoh hnd rfl
    · rw [if_neg hid]
      dsimp only
      have hne_old : s.instances ≠ [] := List.ne_nil_of_mem hmem
      obtain ⟨p₀, hp₀, hp₀id, hp₀idx⟩ := hinv.leadIn hne_old
      have hp₀key : p₀.1 ≠ id := by
        intro h
        exact hid (hinstid.trans (h ▸ hp₀id))
      have hp₀' : p₀ ∈ mapDelete s.instances id :=
        mem_mapDelete_of_mem hp₀ hp₀key
      constructor
      · exact hcoh
      · exact hnd
      · intro h
        have hd : mapDelete s.instances id = [] := h
        rw [hd] at hp₀'
        cases hp₀'
      · intro _
        exact ⟨p₀, hp₀', hp₀id, hp₀idx⟩
      · intro p hp
        exact hinv.leadMin p (mem_of_mem_mapDelete hp)

/-- Decoded form of `dataOk`. -/
theorem dataOk_iff {tbl data : List (String × Instance)} :
    dataOk tbl data = true ↔
      keysNodupB data = true ∧
      (∀ p ∈ data, p.1 = p.2.ID ∧ instOk tbl p.2 = true) ∧
      ∀ p ∈ data, ∀ q ∈ data, p.1 = q.1 ∨ p.2.Index ≠ q.2.Index := by
  simp [dataOk, List.all_eq_true, bne_iff_ne, Bool.or_eq_true, beq_iff_eq,
    and_assoc]

theorem inv_setInstances (s : service) (data : List (String × Instance))
    (hinv : Inv s) (hok : dataOk s.instances data = true) :
    Inv (s.SetInstances data) := by
  rw [dataOk_iff] at hok
  have hcoh : ∀ p ∈ data, p.2.ID = p.1 ∧ 0 < p.2.Index := by
    intro p hp
    obtain ⟨hkey, hio⟩ := hok.2.1 p hp
    exact ⟨hkey.symm, (instOk_iff.1 hio).1⟩
  unfold service.SetInstances
  cases hv : mapLookup data s.leaderID with
  | none =>
    exact inv_pick_from_zero hcoh hok.1 rfl
  | some v =>
    simp only [Option.isNone_some]
    rw [if_neg Bool.false_ne_true]
    have hvmem : (s.leaderID, v) ∈ data := mapLookup_some_mem hv
    have hvid : v.ID = s.leaderID := (hcoh _ hvmem).1
    by_cases hnil : s.instances = []
    · exact inv_pick_from_zero hcoh hok.1 (hinv.empty0 hnil)
    · obtain ⟨p₀, hp₀, hp₀id, hp₀idx⟩ := hinv.leadIn hnil
      have hvidx : v.Index = s.leaderIndex := by
        have hio := (instOk_iff.1 (hok.2.1 _ hvmem).2).2 p₀ hp₀
        rcases hio.1 with h | h
        · exact absurd (hp₀id.trans hvid.symm) h
        · rw [← h, hp₀idx]
      set s₂ : service := { s with instances := data } with hs₂
      have hpos : ∀ p ∈ s₂.instances, 0 < p.2.Index := fun p hp => (hcoh p hp).2
      obtain ⟨hi, -, hmin, horig, -⟩ := pickFold_spec s₂.instances s₂ hpos
      have hi' : s₂.maybePickLeader.instances = s₂.instances := hi
      constructor
      · rw [hi']; exact hcoh
      · rw [hi']; exact hok.1
      · intro h
        rw [hi'] at h
        have hdata : data = [] := h
        rw [hdata] at hvmem
        cases hvmem
      · intro hne
        rw [hi'] at hne ⊢
        rcases horig with ⟨hid, hidx⟩ | ⟨p, hp, hid, hidx⟩
        · exact ⟨(s.leaderID, v), hvmem, hid.symm, hvidx.trans hidx.symm⟩
        · exact ⟨p, hp, ((hcoh p hp).1).symm.trans hid.symm, hidx.symm⟩
      · intro p hp
        rw [hi'] at hp
        exact hmin p hp

theorem inv_applyMutation (s : service) (m : Mutation) (hinv : Inv s)
    (hok : mutOk s m = true) : Inv (applyMutation s m) := by
  cases m with
  | addInstance inst => exact inv_addInstance s inst hinv hok
  | removeInstance id => exact inv_removeInstance s id hinv
  | setInstances data => exact inv_setInstances s data hinv hok

theorem inv_applyMutations (s : service) (ms : List Mutation) (hinv : Inv s)
    (hok : seqOk s ms = true) : Inv (applyMutations s ms) := by
  induction ms generalizing s with
  | nil => exact hinv
  | cons m rest ih =>
    simp only [seqOk, Bool.and_eq_true] at hok
    exact ih (applyMutation s m) (inv_applyMutation s m hinv hok.1) hok.2

/-- On a non-empty invariant-respecting table, `Leader` finds the recorded
leader entry. -/
theorem inv_leader_lookup {s : service} (hinv : Inv s)
    (hne : s.instances ≠ []) :
    ∃ p ∈ s.instances, p.1 = s.leaderID ∧ p.2.Index = s.leaderIndex ∧
      mapLookup s.instances s.leaderID = some p.2 := by
  obtain ⟨p, hp, hpid, hpidx⟩ := hinv.leadIn hne
  refine ⟨p, hp, hpid, hpidx, ?_⟩
  have hmem : (s.leaderID, p.2) ∈ s.instances := by
    have hpe : p = (s.leaderID, p.2) := by
      obtain ⟨p1, p2⟩ := p
      simp only at hpid
      rw [hpid]
    rw [← hpe]
    exact hp
  exact mapLookup_eq_some_of_mem hinv.nodup hmem

/-! ### Claims C3 and C4: leader minimality and leader emptiness -/

/-- C3: after any sequence of service-table mutations (`AddInstance`,
`RemoveInstance`, `SetInstances`) in which every instance handed in has a
strictly positive `Index`, indices are unique, and no `ID` is re-added with a
different `Index`, a service with at least one instance has `Leader()`
returning a registered instance whose `Index` is minimal among all registered
instances. -/
theorem C3_leader_minimal (ms : List Mutation)
    (hok : seqOk newService ms = true)
    (hne : (applyMutations newService ms).instances ≠ []) :
    ∃ inst, (applyMutations newService ms).Leader = some inst ∧
      (inst.ID, inst) ∈ (applyMutations newService ms).instances ∧
      ∀ p ∈ (applyMutations newService ms).instances, inst.Index ≤ p.2.Index := by
  have hinv := inv_applyMutations newService ms inv_newService hok
  obtain ⟨p, hp, hpid, hpidx, hlk⟩ := inv_leader_lookup hinv hne
  have hcoh := hinv.coh p hp
  refine ⟨p.2, hlk, ?_, ?_⟩
  · rw [hcoh.1, hpid]
    have hpe : p = (p.1, p.2) := rfl
    rw [← hpid]
    rw [← hpe] at *
    exact hp
  · intro q hq
    rw [hpidx]
    exact hinv.leadMin q hq

/-- Witness for C3 at a concrete two-instance mutation sequence. -/
theorem C3_leader_minimal_witness :
    ∃ inst,
      (applyMutations newService
        [Mutation.addInstance iW1, Mutation.addInstance iW2]).Leader =
        some inst ∧
      (inst.ID, inst) ∈ (applyMutations newService
        [Mutation.addInstance iW1, Mutation.addInstance iW2]).instances ∧
      ∀ p ∈ (applyMutations newService
        [Mutation.addInstance iW1, Mutation.addInstance iW2]).instances,
        inst.Index ≤ p.2.Index :=
  C3_leader_minimal [Mutation.addInstance iW1, Mutation.addInstance iW2]
    (by decide) (by decide)

/-- C4: after any sequence of service-table mutations in which every instance
handed in has a strictly positive `Index` (with the same upstream contract as
C3), `Leader()` returns none iff the instance map is empty. -/
theorem C4_leader_none_iff_empty (ms : List Mutation)
    (hok : seqOk newService ms = true) :
    (applyMutations newService ms).Leader = none ↔
      (applyMutations newService ms).instances = [] := by
  have hinv := inv_applyMutations newService ms inv_newService hok
  constructor
  · intro h
    by_contra hne
    obtain ⟨p, hp, -, -, hlk⟩ := inv_leader_lookup hinv hne
    rw [show (applyMutations newService ms).Leader =
      mapLookup (applyMutations newService ms).instances
        (applyMutations newService ms).leaderID from rfl, hlk] at h
    cases h
  · intro h
    show mapLookup (applyMutations newService ms).instances
      (applyMutations newService ms).leaderID = none
    rw [h]
    rfl

/-- Witness for C4 at a concrete mutation sequence ending in a removal. -/
theorem C4_leader_none_iff_empty_witness :
    (applyMutations newService
      [Mutation.addInstance iW1, Mutation.removeInstance "a"]).Leader = none ↔
    (applyMutations newService
      [Mutation.addInstance iW1, Mutation.removeInstance "a"]).instances = [] :=
  C4_leader_none_iff_empty
    [Mutation.addInstance iW1, Mutation.removeInstance "a"] (by decide)

/-! ### Shape lemmas for the registry operations -/

theorem broadcastLeader_none {st : State} {name : String}
    (h : mapLookup st.services name = none) :
    st.broadcastLeader name = none := by
  unfold State.broadcastLeader
  rw [h]

theorem broadcastLeader_eq {st : State} {name : String} {svc : service}
    (h : mapLookup st.services name = some svc) :
    st.broadcastLeader name =
      some ({ services := mapInsert st.services name svc.BroadcastLeader.2 },
        leaderEvents name svc.BroadcastLeader.1) := by
  unfold State.broadcastLeader
  rw [h]
  rcases hb : svc.BroadcastLeader with ⟨l?, svc'⟩
  cases l? <;> simp [hb, leaderEvents]

/-- Leader-broadcast events always carry the `leader` kind. -/
theorem leaderEvs_kind (name : String) (o : Option Instance) :
    ∀ e ∈ leaderEvents name o, e.Kind = EventKindLeader := by
  cases o <;> simp [leaderEvents]

theorem broadcastLeader_instances (s : service) :
    s.BroadcastLeader.2.instances = s.instances := by
  unfold service.BroadcastLeader
  split <;> rfl

theorem filterMap_some_map (f : α → β) (l : List α) :
    l.filterMap (fun a => some (f a)) = l.map f := by
  induction l with
  | nil => rfl
  | cons a l ih => simp [List.filterMap_cons, ih]

theorem setService_nil_present {st : State} {name : String} {svc : service}
    (h : mapLookup st.services name = some svc) :
    st.SetService name none =
      some ({ services := mapDelete st.services name },
        svc.instances.map fun p => Event.mk name EventKindDown p.2) := by
  unfold State.SetService
  rw [h]
  simp only [Option.isSome_some, if_true, Option.getD_none, List.filterMap_nil,
    List.length_nil, mapLookup, Option.isNone_none, if_pos, gt_iff_lt,
    Nat.lt_irrefl, if_false, List.nil_append, filterMap_some_map]

theorem setService_nil_absent {st : State} {name : String}
    (h : mapLookup st.services name = none) :
    st.SetService name none = none := by
  unfold State.SetService
  rw [h]
  simp [broadcastLeader_none (mapLookup_mapDelete_of_none name h)]

theorem removeService_present {st : State} {name : String} {svc : service}
    (h : mapLookup st.services name = some svc) :
    st.RemoveService name =
      some ({ services := mapDelete st.services name },
        svc.instances.map fun p => Event.mk name EventKindDown p.2) := by
  unfold State.RemoveService
  rw [h]

theorem removeService_absent {st : State} {name : String}
    (h : mapLookup st.services name = none) :
    st.RemoveService name = none := by
  unfold State.RemoveService
  rw [h]

theorem addInstance_shape (st : State) (name : String) (inst : Instance) :
    ∃ st' levs,
      (∀ e ∈ levs, e.Kind = EventKindLeader) ∧
      st.AddInstance name inst = some (st',
        (match mapLookup ((mapLookup st.services name).getD newService).instances
            inst.ID with
         | none => [Event.mk name (eventKindUpdate false) inst]
         | some o => if inst.Equal o then []
             else [Event.mk name (eventKindUpdate true) inst]) ++ levs) := by
  unfold State.AddInstance service.AddInstance
  dsimp only
  rw [broadcastLeader_eq (mapLookup_insert_self st.services name _)]
  exact ⟨_, _, leaderEvs_kind name _, rfl⟩

theorem removeInstance_isSome (st : State) (name id : String) :
    (st.RemoveInstance name id).isSome = true := by
  unfold State.RemoveInstance
  cases h : mapLookup st.services name with
  | none => rfl
  | some data =>
    dsimp only
    cases hr : (data.RemoveInstance id).1 with
    | none => rfl
    | some inst =>
      dsimp only
      rw [broadcastLeader_eq (mapLookup_insert_self st.services name _)]
      rfl

theorem setService_some_isSome (st : State) (name : String) (l : List Instance) :
    (st.SetService name (some l)).isSome = true := by
  unfold State.SetService
  cases h : mapLookup st.services name with
  | none =>
    simp only [Option.getD_none, Option.isSome_none]
    rw [if_neg Bool.false_ne_true,
      broadcastLeader_eq (mapLookup_insert_self st.services name _)]
    rfl
  | some svc =>
    simp only [Option.getD_some, Option.isSome_some, if_true]
    by_cases hl : l.length > 0
    · rw [if_pos hl,
        broadcastLeader_eq (mapLookup_insert_self st.services name _)]
      rfl
    · rw [if_neg hl]
      rfl

/-! ### Claim C1: `SetService(name, nil)` on an existing service -/

/-- C1 (counterexample): on a registry where `web` holds the single instance
`iW1`, `SetService("web", nil)` deletes the entry but emits a `down` event for
`iW1`, refuting the claim that no events at all are emitted. -/
theorem C1_counterexample :
    stWeb.SetService "web" none =
      some ({ services := [] }, [Event.mk "web" EventKindDown iW1]) := by
  decide

/-- C1 (amended): for every registry state in which service `name` exists
with a non-empty instance map, `SetService(name, nil)` deletes the service
entry and emits exactly one `down` event per previously registered instance
(and no other events, in particular no `leader` event). -/
theorem C1_setService_nil_downs (st : State) (name : String) (svc : service)
    (hlk : mapLookup st.services name = some svc)
    (hne : svc.instances ≠ []) :
    st.SetService name none =
      some ({ services := mapDelete st.services name },
        svc.instances.map fun p => Event.mk name EventKindDown p.2) :=
  setService_nil_present hlk

/-- Witness for C1 (amended) at the concrete registry `stWeb`. -/
theorem C1_setService_nil_downs_witness :
    stWeb.SetService "web" none =
      some ({ services := mapDelete stWeb.services "web" },
        svcWeb.instances.map fun p => Event.mk "web" EventKindDown p.2) :=
  C1_setService_nil_downs stWeb "web" svcWeb (by decide) (by decide)

/-! ### Claim C2: panic-freedom of the public mutations -/

/-- C2 (counterexample): `RemoveService` on an unknown name dereferences the
nil `*service` (`s.services[name].instances`) and panics — modelled as
`none` — and `SetService(name, nil)` on an unknown name panics inside
`broadcastLeader`; both refute the claim that no public mutation panics. -/
theorem C2_counterexample :
    NewState.RemoveService "web" = none ∧
    NewState.SetService "web" none = none := by
  constructor <;> decide

/-- C2 (amended): `AddService` is total; `AddInstance`, `RemoveInstance` and
`SetService` with a non-nil list never panic on any input state; but
`RemoveService(name)` panics exactly when `name` is unknown, and
`SetService(name, nil)` panics exactly when `name` is unknown. -/
theorem C2_mutation_panics (st : State) (name id : String) (inst : Instance)
    (data : List Instance) :
    (st.AddInstance name inst).isSome = true ∧
    (st.RemoveInstance name id).isSome = true ∧
    (st.SetService name (some data)).isSome = true ∧
    ((st.RemoveService name).isSome = true ↔
      (mapLookup st.services name).isSome = true) ∧
    ((st.SetService name none).isSome = true ↔
      (mapLookup st.services name).isSome = true) := by
  refine ⟨?_, removeInstance_isSome st name id, setService_some_isSome st name data, ?_, ?_⟩
  · obtain ⟨st', levs, -, heq⟩ := addInstance_shape st name inst
    rw [heq]
    rfl
  · cases h : mapLookup st.services name with
    | none => rw [removeService_absent h]; simp
    | some svc => rw [removeService_present h]; simp
  · cases h : mapLookup st.services name with
    | none => rw [setService_nil_absent h]; simp
    | some svc => rw [setService_nil_present h]; simp

/-! ### Claim C5: `notifyLeader` after `maybeSetLeader` -/

/-- C5 (counterexample): on a service with a pending leader notification
(`notifyLeader = true`), re-adopting the same leader `ID` with a smaller
`Index` is an adopting call whose new `leaderID` equals the previous one, yet
`notifyLeader` stays `true`; this refutes the claimed "if and only if". -/
theorem C5_counterexample :
    (svcPending.leaderIndex = 0 ∨ svcPending.leaderIndex > iW1small.Index) ∧
    (svcPending.maybeSetLeader iW1small).leaderID = svcPending.leaderID ∧
    ¬(((svcPending.maybeSetLeader iW1small).notifyLeader = true) ↔
      (svcPending.maybeSetLeader iW1small).leaderID ≠ svcPending.leaderID) := by
  refine ⟨by decide, by decide, ?_⟩
  intro h
  exact (h.1 (by decide)) (by decide)

/-- C5 (amended): when `maybeSetLeader(inst)` adopts `inst` (leader unset or
`inst.Index` smaller), the new `leaderID`/`leaderIndex` are taken from `inst`
and afterwards `notifyLeader` is true iff it was already true or the new
`leaderID` differs from the previous one; a non-adopting call leaves the
service unchanged. -/
theorem C5_notifyLeader (s : service) (inst : Instance) :
    ((s.leaderIndex = 0 ∨ s.leaderIndex > inst.Index) →
      (s.maybeSetLeader inst).leaderID = inst.ID ∧
      (s.maybeSetLeader inst).leaderIndex = inst.Index ∧
      ((s.maybeSetLeader inst).notifyLeader = true ↔
        (s.notifyLeader = true ∨ inst.ID ≠ s.leaderID))) ∧
    (¬(s.leaderIndex = 0 ∨ s.leaderIndex > inst.Index) →
      s.maybeSetLeader inst = s) := by
  constructor
  · intro hc
    unfold service.maybeSetLeader
    rw [if_pos hc]
    refine ⟨rfl, rfl, ?_⟩
    simp [bne_iff_ne]
  · intro hc
    unfold service.maybeSetLeader
    rw [if_neg hc]

/-- Witness for C5 (amended): the adopting branch at a concrete pending
service. -/
theorem C5_notifyLeader_witness :
    (svcPending.maybeSetLeader iW1small).leaderID = iW1small.ID ∧
    (svcPending.maybeSetLeader iW1small).leaderIndex = iW1small.Index ∧
    ((svcPending.maybeSetLeader iW1small).notifyLeader = true ↔
      (svcPending.notifyLeader = true ∨ iW1small.ID ≠ svcPending.leaderID)) :=
  (C5_notifyLeader svcPending iW1small).1 (by decide)

/-! ### Claims C7 and C10: the Subscribe snapshot -/

/-- C7: when `sendCurrent` is true and `kinds` intersects
`{up, update, leader}`, the events Subscribe delivers before any live event
are exactly one `up` event per currently registered instance (only when
`kinds` intersects `{up, update}`), followed by exactly one `leader` event
(only when `kinds` includes `leader` and a leader exists); when `sendCurrent`
is false or `kinds` misses all three bits, no snapshot events are
delivered. -/
theorem C7_subscribe_snapshot (st : State) (name : String) (sendCurrent : Bool)
    (kinds : Nat) :
    (sendCurrent = true →
      (kinds &&& (EventKindUp ||| EventKindUpdate ||| EventKindLeader)) ≠ 0 →
      st.subscribeSnapshot name sendCurrent kinds =
        (if (kinds &&& (EventKindUp ||| EventKindUpdate)) ≠ 0 then
          (st.Get name).map fun inst => Event.mk name EventKindUp inst
         else []) ++
        (if (kinds &&& EventKindLeader) ≠ 0 then
          leaderEvents name (st.GetLeader name)
         else [])) ∧
    ((sendCurrent = false ∨
      (kinds &&& (EventKindUp ||| EventKindUpdate ||| EventKindLeader)) = 0) →
      st.subscribeSnapshot name sendCurrent kinds = []) := by
  constructor
  · intro hsc hmask
    have hsc' : (sendCurrent &&
        ((kinds &&& (EventKindUp ||| EventKindUpdate ||| EventKindLeader)) != 0))
        = true := by
      rw [hsc, Bool.true_and]
      simpa using hmask
    unfold State.subscribeSnapshot
    rw [hsc']
    simp only [if_true, eq_self_iff_true, bne_iff_ne, State.Get,
      State.GetLeader, ne_eq]
  · intro hor
    have hsc' : (sendCurrent &&
        ((kinds &&& (EventKindUp ||| EventKindUpdate ||| EventKindLeader)) != 0))
        = false := by
      rcases hor with h | h
      · rw [h, Bool.false_and]
      · simp [h]
    unfold State.subscribeSnapshot
    rw [hsc']
    simp [leaderEvents]

/-- Witness for C7 at the concrete registry `stWeb` with all kinds
selected. -/
theorem C7_subscribe_snapshot_witness :
    stWeb.subscribeSnapshot "web" true EventKindAll =
      (if (EventKindAll &&& (EventKindUp ||| EventKindUpdate)) ≠ 0 then
        (stWeb.Get "web").map fun inst => Event.mk "web" EventKindUp inst
       else []) ++
      (if (EventKindAll &&& EventKindLeader) ≠ 0 then
        leaderEvents "web" (stWeb.GetLeader "web")
       else []) :=
  (C7_subscribe_snapshot stWeb "web" true EventKindAll).1 rfl (by decide)

/-- C10: subscribing with `sendCurrent` to a service name not present in the
registry succeeds (no panic: `Leader` carries the nil-receiver guard and the
instance read yields the empty list) and delivers no snapshot events. -/
theorem C10_subscribe_unknown (st : State) (name : String) (kinds : Nat)
    (h : mapLookup st.services name = none) :
    st.Get name = [] ∧ st.GetLeader name = none ∧
    st.subscribeSnapshot name true kinds = [] := by
  have hg : st.getLocked name = [] := by
    unfold State.getLocked
    rw [h]
  refine ⟨hg, ?_, ?_⟩
  · unfold State.GetLeader
    rw [h]
    rfl
  · unfold State.subscribeSnapshot
    rw [h, hg]
    simp [leaderOpt, leaderEvents]

/-- Witness for C10 on the empty registry. -/
theorem C10_subscribe_unknown_witness :
    NewState.Get "web" = [] ∧ NewState.GetLeader "web" = none ∧
    NewState.subscribeSnapshot "web" true EventKindAll = [] :=
  C10_subscribe_unknown NewState "web" EventKindAll (by decide)

/-! ### Claim C6: re-adding an instance whose only change is `Index` -/

/-- C6: if instance `A` is registered under `name` and `A'` agrees with `A`
on `Addr`, `Proto` and `Meta` (hence, with both IDs derived as the code
prescribes, on `ID`) but differs in `Index`, then `AddInstance(name, A')`
emits no `up` and no `update` event: the event-decision equality excludes
`Index` and `ID`. -/
theorem C6_addInstance_index_only (st : State) (name : String)
    (svc : service) (A Ap : Instance)
    (hlk : mapLookup st.services name = some svc)
    (hreg : mapLookup svc.instances A.ID = some A)
    (hidA : A.ID = A.id)
    (hidAp : Ap.ID = Ap.id)
    (haddr : Ap.Addr = A.Addr)
    (hproto : Ap.Proto = A.Proto)
    (hmeta : mapEqual Ap.Meta A.Meta = true)
    (hidx : Ap.Index ≠ A.Index) :
    ∃ st' evs, st.AddInstance name Ap = some (st', evs) ∧
      ∀ e ∈ evs, e.Kind ≠ EventKindUp ∧ e.Kind ≠ EventKindUpdate := by
  have hid : Ap.ID = A.ID := by
    rw [hidA, hidAp]
    unfold Instance.id
    rw [haddr, hproto]
  obtain ⟨st', levs, hkinds, heq⟩ := addInstance_shape st name Ap
  rw [hlk] at heq
  simp only [Option.getD_some] at heq
  have hold : mapLookup svc.instances Ap.ID = some A := by
    rw [hid]
    exact hreg
  rw [hold] at heq
  dsimp only at heq
  have hEq : Ap.Equal A = true := by
    unfold Instance.Equal
    rw [haddr, hproto]
    simp [hmeta]
  rw [if_pos hEq] at heq
  refine ⟨st', levs, by simpa using heq, ?_⟩
  intro e he
  rw [hkinds e he]
  exact ⟨by decide, by decide⟩

set_option maxRecDepth 100000 in
/-- Witness for C6: re-adding the valid instance `iHttp` as `iHttp9`
(different `Index` only) on the concrete registry `stHttp`. -/
theorem C6_addInstance_index_only_witness :
    ∃ st' evs, stHttp.AddInstance "web" iHttp9 = some (st', evs) ∧
      ∀ e ∈ evs, e.Kind ≠ EventKindUp ∧ e.Kind ≠ EventKindUpdate :=
  C6_addInstance_index_only stHttp "web" svcHttp iHttp iHttp9
    (by decide) (by decide)
    (by decide) (by decide)
    (by decide) (by decide) (by decide) (by decide)

/-! ### Claim C8: instance validation -/

/-- The rune loop of `validProto` rejects exactly the strings with a
character outside the spec's `[a-z0-9]` grammar. -/
theorem any_badRune_iff (s : String) :
    (s.data.any fun r => (r < 'a' || r > 'z') && (r < '0' || r > '9')) = true ↔
      ¬ ∀ c ∈ s.data, ('a' ≤ c ∧ c ≤ 'z') ∨ ('0' ≤ c ∧ c ≤ '9') := by
  simp only [List.any_eq_true, Bool.and_eq_true, Bool.or_eq_true,
    decide_eq_true_eq]
  constructor
  · rintro ⟨r, hr, h1, h2⟩ hall
    rcases hall r hr with ⟨ha, hz⟩ | ⟨h0, h9⟩
    · rcases h1 with h | h
      · exact absurd ha (not_le.2 h)
      · exact absurd h (not_lt.2 hz)
    · rcases h2 with h | h
      · exact absurd h0 (not_le.2 h)
      · exact absurd h (not_lt.2 h9)
  · intro hnall
    rcases not_forall.1 hnall with ⟨c, hcc⟩
    rcases Classical.not_imp.1 hcc with ⟨hc, hbad⟩
    refine ⟨c, hc, ?_, ?_⟩
    · by_cases h1 : c < 'a'
      · exact .inl h1
      · refine .inr ?_
        by_contra h2
        exact hbad (.inl ⟨not_lt.1 h1, not_lt.1 h2⟩)
    · by_cases h1 : c < '0'
      · exact .inl h1
      · refine .inr ?_
        by_contra h2
        exact hbad (.inr ⟨not_lt.1 h1, not_lt.1 h2⟩)

/-- The three possible outcomes of `validProto`, tied to the spec's proto
grammar. -/
theorem validProto_cases (inst : Instance) :
    (inst.Proto = "" ∧ inst.validProto = .error .unsetProto) ∨
    (inst.Proto ≠ "" ∧ ¬ specProtoOk inst.Proto ∧
      inst.validProto = .error .invalidProto) ∨
    (specProtoOk inst.Proto ∧ inst.validProto = .ok ()) := by
  unfold Instance.validProto
  by_cases h0 : inst.Proto = ""
  · exact .inl ⟨h0, by rw [if_pos h0]⟩
  · rw [if_neg h0]
    by_cases hbad : (inst.Proto.data.any fun r =>
        (r < 'a' || r > 'z') && (r < '0' || r > '9')) = true
    · refine .inr (.inl ⟨h0, ?_, by rw [if_pos hbad]⟩)
      intro hsp
      exact (any_badRune_iff inst.Proto).1 hbad hsp.2
    · refine .inr (.inr ⟨⟨h0, ?_⟩, by rw [if_neg hbad]⟩)
      by_contra hnall
      exact hbad ((any_badRune_iff inst.Proto).2 hnall)

/-- C8: `Valid` succeeds iff `Proto` is non-empty lowercase alphanumeric,
`Addr` splits as host:port, and `ID` equals the lowercase-hex MD5 digest of
`Proto + "-" + Addr`; on failure it returns the error of the first failing
check in that order, with distinct error kinds for unset proto, invalid
proto, invalid address, and ID mismatch. -/
theorem C8_valid_characterization (inst : Instance) :
    (inst.Valid = .ok () ↔
      (specProtoOk inst.Proto ∧ (splitHostPort inst.Addr).isSome = true ∧
        inst.ID = md5sum (inst.Proto ++ "-" ++ inst.Addr))) ∧
    (inst.Proto = "" → inst.Valid = .error .unsetProto) ∧
    (inst.Proto ≠ "" → ¬ specProtoOk inst.Proto →
      inst.Valid = .error .invalidProto) ∧
    (specProtoOk inst.Proto → splitHostPort inst.Addr = none →
      inst.Valid = .error .invalidAddr) ∧
    (specProtoOk inst.Proto → (splitHostPort inst.Addr).isSome = true →
      inst.ID ≠ md5sum (inst.Proto ++ "-" ++ inst.Addr) →
      inst.Valid = .error (.idMismatch (md5sum (inst.Proto ++ "-" ++ inst.Addr)))) := by
  have hexp : inst.id = md5sum (inst.Proto ++ "-" ++ inst.Addr) := rfl
  rcases validProto_cases inst with ⟨h0, hvp⟩ | ⟨h0, hnsp, hvp⟩ | ⟨hsp, hvp⟩
  · have hV : inst.Valid = .error .unsetProto := by
      unfold Instance.Valid
      rw [hvp]
    have hnsp : ¬ specProtoOk inst.Proto := fun hsp => hsp.1 h0
    refine ⟨⟨?_, ?_⟩, fun _ => hV, fun h _ => absurd h0 h,
      fun hsp _ => absurd hsp hnsp, fun hsp _ _ => absurd hsp hnsp⟩
    · intro h
      rw [hV] at h
      cases h
    · rintro ⟨hsp, -, -⟩
      exact absurd hsp hnsp
  · have hV : inst.Valid = .error .invalidProto := by
      unfold Instance.Valid
      rw [hvp]
    refine ⟨⟨?_, ?_⟩, fun h => absurd h h0, fun _ _ => hV,
      fun hsp _ => absurd hsp hnsp, fun hsp _ _ => absurd hsp hnsp⟩
    · intro h
      rw [hV] at h
      cases h
    · rintro ⟨hsp, -, -⟩
      exact absurd hsp hnsp
  · have h0 : inst.Proto ≠ "" := hsp.1
    cases hsp' : splitHostPort inst.Addr with
    | none =>
      have hV : inst.Valid = .error .invalidAddr := by
        unfold Instance.Valid
        rw [hvp, hsp']
      refine ⟨⟨?_, ?_⟩, fun h => absurd h h0, fun _ hn => absurd hsp hn,
        fun _ _ => hV, fun _ hs _ => Bool.noConfusion hs⟩
      · intro h
        rw [hV] at h
        cases h
      · rintro ⟨-, hs, -⟩
        exact Bool.noConfusion hs
    | some hp =>
      by_cases hID : inst.ID = inst.id
      · have hV : inst.Valid = .ok () := by
          unfold Instance.Valid
          rw [hvp, hsp']
          dsimp only
          rw [if_neg (not_not_intro hID)]
        refine ⟨⟨fun _ => ⟨hsp, rfl, hexp ▸ hID⟩, fun _ => hV⟩,
          fun h => absurd h h0, fun _ hn => absurd hsp hn,
          fun _ he => Option.noConfusion he,
          fun _ _ hne => absurd (hexp ▸ hID) hne⟩
      · have hV : inst.Valid = .error (.idMismatch inst.id) := by
          unfold Instance.Valid
          rw [hvp, hsp']
          dsimp only
          rw [if_pos hID]
        refine ⟨⟨?_, ?_⟩, fun h => absurd h h0, fun _ hn => absurd hsp hn,
          fun _ he => Option.noConfusion he, fun _ _ _ => hexp ▸ hV⟩
        · intro h
          rw [hV] at h
          cases h
        · rintro ⟨-, -, hid⟩
          exact absurd (hexp ▸ hid) hID

set_option maxRecDepth 100000 in
/-- Witness for C8: the concrete instance `iHttp` with derived MD5 `ID`
validates successfully. -/
theorem C8_valid_characterization_witness : iHttp.Valid = .ok () :=
  (C8_valid_characterization iHttp).1.mpr
    ⟨by decide, by decide, by decide⟩

/-! ### Claim C9: `SetService` on a new name with duplicate IDs -/

theorem find?_append (p : α → Bool) (l₁ l₂ : List α) :
    (l₁ ++ l₂).find? p =
      match l₁.find? p with
      | some x => some x
      | none => l₂.find? p := by
  induction l₁ with
  | nil => simp
  | cons a l ih =>
    cases h : p a with
    | true => simp [List.find?_cons, h]
    | false =>
      simp only [List.cons_append, List.find?_cons, h]
      exact ih

/-- Looking up in the map `SetService` builds from an instance list finds the
last list element carrying that `ID`. -/
theorem foldl_mapInsert_lookup (l : List Instance)
    (m0 : List (String × Instance)) (id : String) :
    mapLookup (l.foldl (fun m inst => mapInsert m inst.ID inst) m0) id =
      match l.reverse.find? (fun inst => inst.ID == id) with
      | some inst => some inst
      | none => mapLookup m0 id := by
  induction l generalizing m0 with
  | nil => simp
  | cons x xs ih =>
    simp only [List.foldl_cons, List.reverse_cons]
    rw [ih, find?_append]
    cases hf : xs.reverse.find? (fun inst => inst.ID == id) with
    | some y => rfl
    | none =>
      dsimp only
      by_cases hx : x.ID = id
      · have hx' : (x.ID == id) = true := by simpa using hx
        simp only [List.find?_cons, hx']
        rw [← hx]
        exact mapLookup_insert_self m0 x.ID x
      · have hx' : (x.ID == id) = false := by simpa using hx
        simp only [List.find?_cons, hx', List.find?_nil]
        exact mapLookup_insert_ne m0 x.ID id x (fun hh => hx hh.symm)

theorem foldl_maybeSetLeader_instances (l : List (String × Instance))
    (s : service) :
    (l.foldl (fun acc p => acc.maybeSetLeader p.2) s).instances =
      s.instances := by
  induction l generalizing s with
  | nil => rfl
  | cons q rest ih =>
    simp only [List.foldl_cons]
    rw [ih, maybeSetLeader_instances]

theorem maybePickLeader_instances (s : service) :
    s.maybePickLeader.instances = s.instances :=
  foldl_maybeSetLeader_instances s.instances s

theorem setInstances_instances (s : service)
    (data : List (String × Instance)) :
    (s.SetInstances data).instances = data := by
  unfold service.SetInstances
  rw [maybePickLeader_instances]

theorem filter_up_map (name : String) (l : List Instance) :
    ((l.map fun inst => Event.mk name EventKindUp inst).filter
      fun e => e.Kind == EventKindUp) =
      l.map fun inst => Event.mk name EventKindUp inst := by
  induction l with
  | nil => rfl
  | cons x xs ih => simp [List.filter_cons, ih]

/-- C9: `SetService(name, data)` on a name not in the registry stores, for
each `ID`, the last list element carrying it (so duplicated IDs keep only
their last occurrence), yet emits one `up` event per list element, so
duplicated IDs produce multiple `up` events for a single stored instance. -/
theorem C9_setService_new_duplicates (st : State) (name : String)
    (l : List Instance) (h : mapLookup st.services name = none) :
    ∃ st' evs svc',
      st.SetService name (some l) = some (st', evs) ∧
      evs.filter (fun e => e.Kind == EventKindUp) =
        l.map (fun inst => Event.mk name EventKindUp inst) ∧
      mapLookup st'.services name = some svc' ∧
      ∀ id, mapLookup svc'.instances id = lastOcc l id := by
  unfold State.SetService
  rw [h]
  simp only [Option.isSome_none, Option.getD_none, Option.getD_some]
  rw [if_neg Bool.false_ne_true,
    broadcastLeader_eq (mapLookup_insert_self st.services name _)]
  dsimp only
  refine ⟨_, _, _, rfl, ?_, mapLookup_insert_self _ _ _, ?_⟩
  · rw [List.filter_append, filter_up_map]
    have h2 : ((leaderEvents name
        ((newService.SetInstances
          (l.foldl (fun m inst => mapInsert m inst.ID inst)
            [])).BroadcastLeader.1)).filter
        fun e => e.Kind == EventKindUp) = [] := by
      cases hl : (newService.SetInstances
          (l.foldl (fun m inst => mapInsert m inst.ID inst)
            [])).BroadcastLeader.1 <;> rfl
    rw [h2, List.append_nil]
  · intro id
    rw [broadcastLeader_instances, setInstances_instances,
      foldl_mapInsert_lookup]
    unfold lastOcc
    cases l.reverse.find? (fun inst => inst.ID == id) <;> rfl

/-- Witness for C9: a fresh `web` set to two instances sharing `ID` `d`. -/
theorem C9_setService_new_duplicates_witness :
    ∃ st' evs svc',
      NewState.SetService "web" (some [iDup1, iDup2]) = some (st', evs) ∧
      evs.filter (fun e => e.Kind == EventKindUp) =
        [iDup1, iDup2].map (fun inst => Event.mk "web" EventKindUp inst) ∧
      mapLookup st'.services "web" = some svc' ∧
      ∀ id, mapLookup svc'.instances id = lastOcc [iDup1, iDup2] id :=
  C9_setService_new_duplicates NewState "web" [iDup1, iDup2] (by decide)

end Discoverd
